import Mathlib

/-!
Shallow embedding of the JustCMS Next.js client (src/lib/justCms.ts).

The client wraps a headless-CMS REST API: a credential resolver
(createJustCmsClient), a request executor (the inner get helper, modelled
here as URL construction plus response handling), six resource accessors,
and four pure content helpers. JavaScript `undefined` is modelled as
`Option.none`; JavaScript truthiness of an optional string (used by the
source in `apiToken || env`, `if (!token)`, `if (version)`,
`endpoint ? ... : ...` and `params?.filters?.category?.slug`) is
`none`/empty-string falsy. Query-parameter values (`Record<string, any>`)
are modelled by `QueryVal`, with `undefined` and `null` dropped by the
executor and every other value serialized with `String(value)`. HTTP
transport is modelled as a function from the built URL to a response
carrying a status, the raw body text, and the body parsed as JSON when it
parses (`Option.none` for a parse failure).
-/

namespace JustCms

/-- Category: name plus stable slug identifier. -/
structure Category where
  name : String
  slug : String
deriving DecidableEq, Repr

/-- Envelope returned by the root endpoint. -/
structure CategoriesResponse where
  categories : List Category
deriving DecidableEq, Repr

/-- One rendition of an image. -/
structure ImageVariant where
  url : String
  width : Int
  height : Int
  filename : String
deriving DecidableEq, Repr

/-- Image: alt text plus ordered variants. -/
structure Image where
  alt : String
  variants : List ImageVariant
deriving DecidableEq, Repr

/-- Lightweight page listing representation. -/
structure PageSummary where
  title : String
  subtitle : String
  coverImage : Option Image
  slug : String
  categories : List Category
  createdAt : String
  updatedAt : String
deriving DecidableEq, Repr

/-- Envelope returned by the pages endpoint. -/
structure PagesResponse where
  items : List PageSummary
  total : Int
deriving DecidableEq, Repr

/-- Option entry of a list block. -/
structure ListOption where
  title : String
  subtitle : Option String
deriving DecidableEq, Repr

/-- Content block: closed tagged union discriminated by the type field.
The custom variant carries its open-ended extra fields as an explicit
side mapping of string values. -/
inductive ContentBlock where
  | header (styles : List String) (header : String) (subheader : Option String) (size : String)
  | list (styles : List String) (options : List ListOption)
  | embed (styles : List String) (url : String)
  | image (styles : List String) (images : List Image)
  | code (styles : List String) (code : String)
  | text (styles : List String) (txt : String)
  | cta (styles : List String) (txt : String) (url : String) (description : Option String)
  | custom (styles : List String) (blockId : String) (extra : List (String × String))
deriving DecidableEq, Repr

/-- Meta information of a page detail. -/
structure PageMeta where
  title : String
  description : String
deriving DecidableEq, Repr

/-- Full page representation returned for a single page. -/
structure PageDetail where
  title : String
  subtitle : String
  meta : PageMeta
  coverImage : Option Image
  slug : String
  categories : List Category
  content : List ContentBlock
  createdAt : String
  updatedAt : String
deriving DecidableEq, Repr

/-- Menu item: recursive tree of unbounded depth. -/
inductive MenuItem where
  | mk (title : String) (subtitle : Option String) (icon : String) (url : String)
       (styles : List String) (children : List MenuItem)

/-- Menu: id, name and items. -/
structure Menu where
  id : String
  name : String
  items : List MenuItem

/-- Discriminator of a layout item value. -/
inductive LayoutItemType where
  | text
  | html
  | boolean
  | svg
deriving DecidableEq, Repr

/-- Layout item value: string or boolean. -/
inductive LayoutValue where
  | str (s : String)
  | bool (b : Bool)
deriving DecidableEq, Repr

/-- One labeled key-value content item of a layout. -/
structure LayoutItem where
  label : String
  description : String
  uid : String
  type : LayoutItemType
  value : LayoutValue
deriving DecidableEq, Repr

/-- Layout: a named set of layout items. -/
structure Layout where
  id : String
  name : String
  items : List LayoutItem
deriving DecidableEq, Repr

/-- The single filter dimension of getPages. -/
structure CategoryFilter where
  slug : String
deriving DecidableEq, Repr

/-- Page filters: only a category filter is supported. -/
structure PageFilters where
  category : CategoryFilter
deriving DecidableEq, Repr

/-- JavaScript value placed in the queryParams record: undefined, null,
a number, or a string. -/
inductive QueryVal where
  | undef
  | null
  | num (n : Int)
  | str (s : String)
deriving DecidableEq, Repr

/-- Serialization applied by the executor: undefined and null are dropped
(the source guard `value !== undefined && value !== null`); any other value
becomes `String(value)`. -/
def QueryVal.serialize : QueryVal → Option String
  | QueryVal.undef => none
  | QueryVal.null => none
  | QueryVal.num n => some (toString n)
  | QueryVal.str s => some s

/-- Fixed API root (the BASE_URL constant of the source). -/
def BASE_URL : String := "https://api.justcms.co/public"

/-- A built request URL: path part and the appended search parameters. -/
structure Url where
  path : String
  query : List (String × String)
deriving DecidableEq, Repr

/-- Resolved client configuration fixed at construction. -/
structure Client where
  token : String
  projectId : String
deriving DecidableEq, Repr

/-- JavaScript `a || b` on optional strings: keep `a` when it is defined
and non-empty, otherwise fall back to `b`. -/
def jsOrString : Option String → Option String → Option String
  | some s, b => if s = "" then b else some s
  | none, b => b

/-- JavaScript truthiness of an optional string: defined and non-empty. -/
def strTruthy : Option String → Bool
  | none => false
  | some s => !(s == "")

/-- Client construction (createJustCmsClient): resolve token and project
id with `arg || env` fallback, then fail when either resolved value is
falsy, in source order (token first). Environment variables
NEXT_PUBLIC_JUSTCMS_TOKEN and NEXT_PUBLIC_JUSTCMS_PROJECT are passed
explicitly as the last two arguments. -/
def createJustCmsClient (apiToken projectIdParam envToken envProject : Option String) :
    Except String Client :=
  let token := jsOrString apiToken envToken
  let projectId := jsOrString projectIdParam envProject
  if strTruthy token = false then Except.error "JustCMS API token is required"
  else if strTruthy projectId = false then Except.error "JustCMS project ID is required"
  else Except.ok ⟨token.getD "", projectId.getD ""⟩

/-- The searchParams appended by the executor: entries with undefined or
null values are skipped, the rest are stringified in iteration order. -/
def buildSearchParams (queryParams : List (String × QueryVal)) : List (String × String) :=
  queryParams.filterMap fun kv => (QueryVal.serialize kv.2).map fun s => (kv.1, s)

/-- URL construction of the executor: `BASE_URL/projectId` followed by
`/endpoint` only when the endpoint string is truthy (non-empty), plus the
filtered query parameters. -/
def buildUrl (c : Client) (endpoint : String) (queryParams : List (String × QueryVal)) : Url :=
  { path := BASE_URL ++ "/" ++ c.projectId ++ (if endpoint = "" then "" else "/" ++ endpoint),
    query := buildSearchParams queryParams }

/-- An HTTP response as seen by the executor: numeric status, raw body
text, and the body parsed as JSON of the expected shape when it parses. -/
structure HttpResponse (T : Type) where
  status : Nat
  bodyText : String
  json : Option T

/-- The fetch Response.ok predicate: status in the range 200 to 299. -/
def responseOk (status : Nat) : Bool :=
  decide (200 ≤ status ∧ status < 300)

/-- Failure modes of the executor: a non-2xx response carrying the status
and the raw body text (the source throws
`Error("JustCMS API error " + status + ": " + errorText)`), or a JSON
parse failure of a successful body. -/
inductive JustCmsError where
  | apiError (status : Nat) (body : String)
  | decodeError (body : String)
deriving DecidableEq, Repr

/-- The message string of the error thrown on a non-2xx response. -/
def apiErrorMessage (status : Nat) (body : String) : String :=
  "JustCMS API error " ++ toString status ++ ": " ++ body

/-- Response handling of the executor: non-ok responses become an
apiError with the status and the body read as text; ok responses are
parsed as JSON, a parse failure becoming a decodeError. -/
def runGet {T : Type} (resp : HttpResponse T) : Except JustCmsError T :=
  if responseOk resp.status then
    match resp.json with
    | some v => Except.ok v
    | none => Except.error (JustCmsError.decodeError resp.bodyText)
  else
    Except.error (JustCmsError.apiError resp.status resp.bodyText)

/-- URL of getCategories: the root endpoint (empty endpoint string, no
query). -/
def getCategoriesUrl (c : Client) : Url := buildUrl c "" []

/-- getCategories on a given transport: run the request against the root
endpoint and unwrap the categories envelope. -/
def getCategoriesRun (c : Client) (transport : Url → HttpResponse CategoriesResponse) :
    Except JustCmsError (List Category) :=
  (runGet (transport (getCategoriesUrl c))).map CategoriesResponse.categories

/-- Parameter object of getPages. -/
structure GetPagesParams where
  filters : Option PageFilters
  start : Option Int
  offset : Option Int
deriving DecidableEq, Repr

/-- Query record built by getPages: the category-slug filter is added
under the truthiness guard `params?.filters?.category?.slug` (so an empty
slug is skipped), while start and offset are added under
`!== undefined` guards (so numeric zero is kept). -/
def getPagesQuery (params : Option GetPagesParams) : List (String × QueryVal) :=
  match params with
  | none => []
  | some p =>
    (match p.filters with
     | some f =>
       if f.category.slug = "" then []
       else [("filter.category.slug", QueryVal.str f.category.slug)]
     | none => [])
    ++ (match p.start with
        | some n => [("start", QueryVal.num n)]
        | none => [])
    ++ (match p.offset with
        | some n => [("offset", QueryVal.num n)]
        | none => [])

/-- URL of getPages: endpoint `pages` with the built query. -/
def getPagesUrl (c : Client) (params : Option GetPagesParams) : Url :=
  buildUrl c "pages" (getPagesQuery params)

/-- Query record built by getPageBySlug: the v key is added only under
the truthiness guard `if (version)`. -/
def getPageBySlugQuery (version : Option String) : List (String × QueryVal) :=
  match version with
  | some v => if v = "" then [] else [("v", QueryVal.str v)]
  | none => []

/-- URL of getPageBySlug: endpoint `pages/slug` with the version query. -/
def getPageBySlugUrl (c : Client) (slug : String) (version : Option String) : Url :=
  buildUrl c ("pages/" ++ slug) (getPageBySlugQuery version)

/-- getPageBySlug on a given transport. -/
def getPageBySlugRun (c : Client) (slug : String) (version : Option String)
    (transport : Url → HttpResponse PageDetail) : Except JustCmsError PageDetail :=
  runGet (transport (getPageBySlugUrl c slug version))

/-- URL of getMenuById: endpoint `menus/id`, no query. -/
def getMenuByIdUrl (c : Client) (id : String) : Url := buildUrl c ("menus/" ++ id) []

/-- URL of getLayoutById: endpoint `layouts/id`, no query. -/
def getLayoutByIdUrl (c : Client) (id : String) : Url := buildUrl c ("layouts/" ++ id) []

/-- JavaScript Array.prototype.join with a separator. -/
def jsJoin (sep : String) (xs : List String) : String := String.intercalate sep xs

/-- URL of getLayoutsByIds: endpoint `layouts/` followed by the ids
joined with a semicolon, no query and no escaping. -/
def getLayoutsByIdsUrl (c : Client) (ids : List String) : Url :=
  buildUrl c ("layouts/" ++ jsJoin ";" ids) []

/-- JavaScript String.prototype.toLowerCase, modelled per character on
the underlying character list. -/
def toLowerCase (s : String) : String := String.mk (s.data.map Char.toLower)

/-- Any object with a styles field, the argument shape of
isBlockHasStyle. -/
structure StyledBlock where
  styles : List String
deriving DecidableEq, Repr

/-- isBlockHasStyle: lower-case every style of the block and test
membership of the lower-cased style. -/
def isBlockHasStyle (block : StyledBlock) (style : String) : Bool :=
  (block.styles.map toLowerCase).contains (toLowerCase style)

/-- getLargeImageVariant: index access `image.variants[1]`, which in
JavaScript evaluates to undefined (here none) when the list is shorter. -/
def getLargeImageVariant (image : Image) : Option ImageVariant :=
  image.variants.get? 1

/-- getFirstImage: index access `block.images[0]`, undefined (none) on an
empty list. -/
def getFirstImage (images : List Image) : Option Image :=
  images.get? 0

/-- hasCategory: exact membership of the slug among the slugs of the
categories of the page. -/
def hasCategory (page : PageDetail) (categorySlug : String) : Bool :=
  (page.categories.map Category.slug).contains categorySlug

/-- Refinement-side resolution written from the words of the spec: fall
back to the configuration value exactly when the explicit argument is
absent, where empty string and missing are both treated as absent. -/
def specResolve (arg fallback : Option String) : Option String :=
  if arg = none ∨ arg = some "" then fallback else arg

lemma strTruthy_eq_false_iff (o : Option String) :
    strTruthy o = false ↔ (o = none ∨ o = some "") := by
  cases o <;> simp [strTruthy]

lemma mem_buildSearchParams (l : List (String × QueryVal)) (k s : String) :
    (k, s) ∈ buildSearchParams l ↔ ∃ v, (k, v) ∈ l ∧ QueryVal.serialize v = some s := by
  simp only [buildSearchParams, List.mem_filterMap, Option.map_eq_some', Prod.mk.injEq]
  constructor
  · rintro ⟨⟨k2, v⟩, hmem, t, hser, hk, ht⟩
    subst hk; subst ht
    exact ⟨v, hmem, hser⟩
  · rintro ⟨v, hmem, hser⟩
    exact ⟨(k, v), hmem, ⟨s, hser, rfl, rfl⟩⟩

/-- C6: isBlockHasStyle returns true exactly when some style of the block
equals the given style after lower-casing both sides, and on the concrete
inputs of the spec it answers true for "highlight" against ["Highlight"]
and false for "other". -/
theorem isBlockHasStyle_correct (block : StyledBlock) (style : String) :
    (isBlockHasStyle block style = true ↔
      ∃ s ∈ block.styles, toLowerCase s = toLowerCase style)
    ∧ isBlockHasStyle ⟨["Highlight"]⟩ "highlight" = true
    ∧ isBlockHasStyle ⟨["Highlight"]⟩ "other" = false := by
  refine ⟨?_, by decide, by decide⟩
  simp [isBlockHasStyle, List.contains_iff_exists_mem_beq, List.mem_map]

/-- Witness for C6 at the concrete inputs of the spec. -/
theorem isBlockHasStyle_correct_witness :
    ∃ s ∈ (StyledBlock.mk ["Highlight"]).styles, toLowerCase s = toLowerCase "highlight" :=
  (isBlockHasStyle_correct (StyledBlock.mk ["Highlight"]) "highlight").1.mp (by decide)

/-- C7: hasCategory returns true exactly when the slug appears among the
slugs of the categories of the page, by exact case-sensitive string
equality. -/
theorem hasCategory_correct (page : PageDetail) (categorySlug : String) :
    hasCategory page categorySlug = true ↔
      ∃ c ∈ page.categories, c.slug = categorySlug := by
  simp [hasCategory, List.contains_iff_exists_mem_beq, List.mem_map]

/-- Sample page used to instantiate the hasCategory characterization. -/
def samplePage : PageDetail :=
  { title := "T", subtitle := "S", meta := ⟨"MT", "MD"⟩, coverImage := none,
    slug := "home", categories := [⟨"Blog", "blog"⟩], content := [],
    createdAt := "2024-01-01", updatedAt := "2024-01-02" }

/-- Witness for C7 at a concrete page. -/
theorem hasCategory_correct_witness :
    ∃ c ∈ samplePage.categories, c.slug = "blog" :=
  (hasCategory_correct samplePage "blog").mp (by decide)

/-- C2 counterexample: on an image with a single variant the call
evaluates normally and returns none (the model of the JavaScript
undefined produced by the out-of-range index access variants[1]), i.e. an
absent value, not an out-of-range failure as the claim states. -/
theorem getLargeImageVariant_single_variant_returns_absent :
    getLargeImageVariant
      { alt := "a", variants := [⟨"https://x/img-sm.png", 100, 80, "img-sm.png"⟩] } = none := rfl

/-- C2 (amended): with at least two variants getLargeImageVariant returns
the variant at index 1; with fewer than two variants it returns none (the
JavaScript undefined), an absent value rather than a raised error. -/
theorem getLargeImageVariant_spec (image : Image) :
    (∀ h : 2 ≤ image.variants.length,
        getLargeImageVariant image = some (image.variants.get ⟨1, h⟩))
    ∧ (image.variants.length < 2 → getLargeImageVariant image = none) := by
  constructor
  · intro h
    exact List.get?_eq_get h
  · intro h
    exact List.get?_eq_none.mpr (Nat.lt_succ_iff.mp h)

/-- Witness for C2 at concrete images. -/
theorem getLargeImageVariant_spec_witness :
    getLargeImageVariant
        { alt := "a",
          variants := [⟨"https://x/s.png", 100, 80, "s.png"⟩,
                       ⟨"https://x/l.png", 800, 600, "l.png"⟩] }
      = some ⟨"https://x/l.png", 800, 600, "l.png"⟩
    ∧ getLargeImageVariant { alt := "b", variants := [⟨"https://x/s.png", 100, 80, "s.png"⟩] }
      = none := by
  constructor
  · exact ((getLargeImageVariant_spec
      { alt := "a",
        variants := [⟨"https://x/s.png", 100, 80, "s.png"⟩,
                     ⟨"https://x/l.png", 800, 600, "l.png"⟩] }).1 (by decide)).trans rfl
  · exact (getLargeImageVariant_spec
      { alt := "b", variants := [⟨"https://x/s.png", 100, 80, "s.png"⟩] }).2 (by decide)

/-- C10: getPageBySlug omits the v query key whenever version is falsy,
i.e. undefined (none) or the empty string: the built query is empty. -/
theorem getPageBySlug_falsy_version_omits_v (c : Client) (slug : String)
    (version : Option String) (h : version = none ∨ version = some "") :
    (getPageBySlugUrl c slug version).query = [] := by
  rcases h with h | h <;> subst h <;> rfl

/-- Witness for C10 at a concrete client, slug and empty-string version. -/
theorem getPageBySlug_falsy_version_omits_v_witness :
    (getPageBySlugUrl ⟨"tok", "proj"⟩ "home" (some "")).query = [] :=
  getPageBySlug_falsy_version_omits_v ⟨"tok", "proj"⟩ "home" (some "") (Or.inr rfl)

lemma layouts_endpoint_ne_empty (s : String) : ¬("layouts/" ++ s) = "" := by
  intro h
  have h2 := congrArg String.length h
  rw [String.length_append] at h2
  have h3 : String.length "layouts/" = 8 := by decide
  have h4 : String.length "" = 0 := by decide
  rw [h3, h4] at h2
  omega

/-- C9: getLayoutsByIds requests the path layouts/ followed by the ids
joined with the semicolon separator, with an empty query and no escaping:
ids ["a", "b"] give the path segment layouts/a;b, and an id that already
contains a semicolon yields the same URL as the two ids it contains. -/
theorem getLayoutsByIds_path (c : Client) (ids : List String) :
    (getLayoutsByIdsUrl c ids).path
        = BASE_URL ++ "/" ++ c.projectId ++ "/layouts/" ++ String.intercalate ";" ids
    ∧ (getLayoutsByIdsUrl c ids).query = []
    ∧ (getLayoutsByIdsUrl c ["a", "b"]).path
        = BASE_URL ++ "/" ++ c.projectId ++ "/layouts/" ++ "a;b"
    ∧ getLayoutsByIdsUrl c ["a;b"] = getLayoutsByIdsUrl c ["a", "b"] := by
  have hs : ("/" : String) ++ "layouts/" = "/layouts/" := by decide
  have key : ∀ l : List String, (getLayoutsByIdsUrl c l).path
      = BASE_URL ++ "/" ++ c.projectId ++ "/layouts/" ++ String.intercalate ";" l := by
    intro l
    show (buildUrl c ("layouts/" ++ jsJoin ";" l) []).path = _
    unfold buildUrl jsJoin
    simp only [if_neg (layouts_endpoint_ne_empty (String.intercalate ";" l))]
    rw [← String.append_assoc "/" "layouts/" (String.intercalate ";" l), hs,
      ← String.append_assoc]
  refine ⟨key ids, rfl, ?_, ?_⟩
  · rw [key ["a", "b"]]
    have : String.intercalate ";" ["a", "b"] = "a;b" := by decide
    rw [this]
  · show buildUrl c ("layouts/" ++ jsJoin ";" ["a;b"]) []
        = buildUrl c ("layouts/" ++ jsJoin ";" ["a", "b"]) []
    unfold jsJoin
    have : String.intercalate ";" ["a;b"] = String.intercalate ";" ["a", "b"] := by decide
    rw [this]

/-- C8: getCategories issues its GET to the root endpoint, the path being
BASE_URL/projectId with no extra segment and an empty query, and on a 2xx
response whose body parses as a categories envelope it returns the inner
categories list, not the envelope; concretely a body holding one Blog
category resolves to exactly that singleton list. -/
theorem getCategories_correct (c : Client) (cats : List Category) (status : Nat) (body : String)
    (h : responseOk status = true) :
    (getCategoriesUrl c).path = BASE_URL ++ "/" ++ c.projectId
    ∧ (getCategoriesUrl c).query = []
    ∧ getCategoriesRun c (fun _ => ⟨status, body, some ⟨cats⟩⟩) = Except.ok cats
    ∧ getCategoriesRun c (fun _ => ⟨200, "body", some ⟨[⟨"Blog", "blog"⟩]⟩⟩)
        = Except.ok [⟨"Blog", "blog"⟩] := by
  refine ⟨?_, rfl, ?_, rfl⟩
  · simp [getCategoriesUrl, buildUrl]
  · simp [getCategoriesRun, runGet, h, Except.map]

/-- Witness for C8 at a concrete client and mocked transport. -/
theorem getCategories_correct_witness :
    getCategoriesRun ⟨"tok", "proj"⟩ (fun _ => ⟨200, "body", some ⟨[⟨"Blog", "blog"⟩]⟩⟩)
      = Except.ok [⟨"Blog", "blog"⟩] :=
  (getCategories_correct ⟨"tok", "proj"⟩ [⟨"Blog", "blog"⟩] 200 "body" (by decide)).2.2.1

/-- C3: every non-2xx response makes the executor fail with an apiError
carrying the numeric status and the raw body text verbatim (the error
path never consults the parsed-JSON view of the body), and a mocked
transport answering 404 with body "not found" makes getPageBySlug for
slug "missing" reject with exactly apiError 404 "not found". -/
theorem get_non2xx_apiError (c : Client) (T : Type) (resp : HttpResponse T)
    (h : responseOk resp.status = false) :
    runGet resp = Except.error (JustCmsError.apiError resp.status resp.bodyText)
    ∧ getPageBySlugRun c "missing" none (fun _ => ⟨404, "not found", none⟩)
        = Except.error (JustCmsError.apiError 404 "not found") := by
  constructor
  · simp [runGet, h]
  · rfl

/-- Witness for C3 at a concrete 404 response. -/
theorem get_non2xx_apiError_witness :
    runGet (⟨404, "not found", none⟩ : HttpResponse PageDetail)
      = Except.error (JustCmsError.apiError 404 "not found") :=
  (get_non2xx_apiError ⟨"tok", "proj"⟩ PageDetail ⟨404, "not found", none⟩ (by decide)).1

/-- C4: for any query record handed to the executor, an entry whose value
is undefined or null contributes no key to the built URL (under the
record discipline that keys are unique), while an entry with numeric
value 0 appears serialized as "0" and an entry with the empty-string
value appears serialized as "". -/
theorem get_query_filtering (c : Client) (endpoint : String)
    (queryParams : List (String × QueryVal)) (k : String) (v : QueryVal)
    (hmem : (k, v) ∈ queryParams) (hnodup : (queryParams.map Prod.fst).Nodup) :
    ((v = QueryVal.undef ∨ v = QueryVal.null) →
        ∀ s, (k, s) ∉ (buildUrl c endpoint queryParams).query)
    ∧ (v = QueryVal.num 0 → (k, "0") ∈ (buildUrl c endpoint queryParams).query)
    ∧ (v = QueryVal.str "" → (k, "") ∈ (buildUrl c endpoint queryParams).query) := by
  have hq : (buildUrl c endpoint queryParams).query = buildSearchParams queryParams := rfl
  refine ⟨?_, ?_, ?_⟩
  · rintro hv s hs
    rw [hq] at hs
    rcases (mem_buildSearchParams queryParams k s).mp hs with ⟨v2, hmem2, hser⟩
    have hvv : v = v2 := by
      have h12 := List.inj_on_of_nodup_map hnodup hmem hmem2 rfl
      exact congrArg Prod.snd h12
    rcases hv with h | h <;> subst h <;> rw [← hvv] at hser <;>
      simp [QueryVal.serialize] at hser
  · rintro rfl
    rw [hq]
    exact (mem_buildSearchParams queryParams k "0").mpr ⟨QueryVal.num 0, hmem, rfl⟩
  · rintro rfl
    rw [hq]
    exact (mem_buildSearchParams queryParams k "").mpr ⟨QueryVal.str "", hmem, rfl⟩

/-- Witness for C4: the zero-valued key of a concrete record appears in
the built URL as "0". -/
theorem get_query_filtering_witness :
    ("b", "0") ∈ (buildUrl ⟨"tok", "proj"⟩ "pages"
      [("a", QueryVal.undef), ("b", QueryVal.num 0)]).query :=
  (get_query_filtering ⟨"tok", "proj"⟩ "pages"
      [("a", QueryVal.undef), ("b", QueryVal.num 0)] "b" (QueryVal.num 0)
      (by decide) (by decide)).2.1 rfl

lemma strTruthy_getD (o : Option String) (h : strTruthy o = true) : some (o.getD "") = o := by
  cases o <;> simp [strTruthy] at h ⊢

/-- C5: construction resolves token and project id by explicit-argument
resolution with fallback exactly when the argument is absent (empty or
missing, the specResolve reading of the spec), truthiness of the resolved
value coincides with non-absence, construction succeeds returning exactly
the resolved pair when both resolved values are present, and otherwise it
fails synchronously with the configuration error for the token first,
else the one for the project id. -/
theorem createJustCmsClient_correct (a p et ep : Option String) :
    (jsOrString a et = specResolve a et ∧ jsOrString p ep = specResolve p ep)
    ∧ (∀ o : Option String, strTruthy o = false ↔ (o = none ∨ o = some ""))
    ∧ ((∃ c : Client, createJustCmsClient a p et ep = Except.ok c
          ∧ some c.token = jsOrString a et ∧ some c.projectId = jsOrString p ep)
        ↔ (strTruthy (jsOrString a et) = true ∧ strTruthy (jsOrString p ep) = true))
    ∧ (strTruthy (jsOrString a et) = false →
        createJustCmsClient a p et ep = Except.error "JustCMS API token is required")
    ∧ (strTruthy (jsOrString a et) = true → strTruthy (jsOrString p ep) = false →
        createJustCmsClient a p et ep = Except.error "JustCMS project ID is required") := by
  have hresolve1 : jsOrString a et = specResolve a et := by
    cases a <;> simp [jsOrString, specResolve]
  have hresolve2 : jsOrString p ep = specResolve p ep := by
    cases p <;> simp [jsOrString, specResolve]
  refine ⟨⟨hresolve1, hresolve2⟩, strTruthy_eq_false_iff, ?_, ?_, ?_⟩
  · constructor
    · rintro ⟨c, hc, ht, hp2⟩
      cases h1 : strTruthy (jsOrString a et) with
      | false => simp [createJustCmsClient, h1] at hc
      | true =>
        cases h2 : strTruthy (jsOrString p ep) with
        | false => simp [createJustCmsClient, h1, h2] at hc
        | true => exact ⟨rfl, rfl⟩
    · rintro ⟨h1, h2⟩
      refine ⟨⟨(jsOrString a et).getD "", (jsOrString p ep).getD ""⟩, ?_, ?_, ?_⟩
      · simp [createJustCmsClient, h1, h2]
      · exact strTruthy_getD _ h1
      · exact strTruthy_getD _ h2
  · intro h1
    simp [createJustCmsClient, h1]
  · intro h1 h2
    simp [createJustCmsClient, h1, h2]

/-- Witness for C5: a concrete construction with an explicit token and a
fallback project id succeeds with the resolved pair. -/
theorem createJustCmsClient_correct_witness :
    ∃ c : Client, createJustCmsClient (some "tok") none none (some "proj") = Except.ok c
      ∧ some c.token = jsOrString (some "tok") none
      ∧ some c.projectId = jsOrString none (some "proj") :=
  (createJustCmsClient_correct (some "tok") none none (some "proj")).2.2.1.mpr (by decide)

/-- C1 counterexample: with a defined category filter whose slug is the
empty string, getPages drops the filter.category.slug key entirely (the
source guards it with a truthiness test), so the built query is empty,
although the claim requires the key to appear for every defined slug
including the empty string. -/
theorem getPages_empty_slug_counterexample :
    (getPagesUrl ⟨"tok", "proj"⟩ (some ⟨some ⟨⟨""⟩⟩, none, none⟩)).query = [] := rfl

lemma mem_getPagesQuery_iff (params : Option GetPagesParams) (k : String) (v : QueryVal) :
    (k, v) ∈ getPagesQuery params ↔
      ∃ p, params = some p ∧
        ((∃ f, p.filters = some f ∧ ¬f.category.slug = "" ∧
            k = "filter.category.slug" ∧ v = QueryVal.str f.category.slug)
         ∨ (∃ n, p.start = some n ∧ k = "start" ∧ v = QueryVal.num n)
         ∨ (∃ n, p.offset = some n ∧ k = "offset" ∧ v = QueryVal.num n)) := by
  rcases params with _ | p
  · simp [getPagesQuery]
  rcases p with ⟨fo, so, oo⟩
  rcases fo with _ | f
  · rcases so with _ | n <;> rcases oo with _ | m <;> simp [getPagesQuery]
  · by_cases hf : f.category.slug = "" <;>
      rcases so with _ | n <;> rcases oo with _ | m <;> simp [getPagesQuery, hf]

/-- C1 (amended): in the getPages query the filter.category.slug key
appears exactly when the filter is defined with a non-empty slug (a
defined empty-string slug is dropped as falsy, contrary to the original
claim), while the start and offset keys appear exactly when their values
are defined, numeric zero included; concretely start 0 with offset 10
yields both start=0 and offset=10. -/
theorem getPages_query_correct (c : Client) (params : Option GetPagesParams) :
    (∀ s : String, ("filter.category.slug", s) ∈ (getPagesUrl c params).query ↔
        ∃ p, params = some p ∧ ∃ f, p.filters = some f ∧ f.category.slug = s ∧ ¬s = "")
    ∧ (∀ t : String, ("start", t) ∈ (getPagesUrl c params).query ↔
        ∃ p, params = some p ∧ ∃ n : Int, p.start = some n ∧ t = toString n)
    ∧ (∀ t : String, ("offset", t) ∈ (getPagesUrl c params).query ↔
        ∃ p, params = some p ∧ ∃ n : Int, p.offset = some n ∧ t = toString n)
    ∧ ("start", "0") ∈ (getPagesUrl c (some ⟨none, some 0, some 10⟩)).query
    ∧ ("offset", "10") ∈ (getPagesUrl c (some ⟨none, some 0, some 10⟩)).query := by
  have hq : ∀ ps, (getPagesUrl c ps).query = buildSearchParams (getPagesQuery ps) :=
    fun _ => rfl
  refine ⟨?_, ?_, ?_, ?_, ?_⟩
  · intro s
    rw [hq, mem_buildSearchParams]
    constructor
    · rintro ⟨v, hv, hser⟩
      rcases (mem_getPagesQuery_iff _ _ _).mp hv with ⟨p, hp, hcase⟩
      rcases hcase with ⟨f, hf, hne, hk, hveq⟩ | ⟨n, hn, hk, hveq⟩ | ⟨n, hn, hk, hveq⟩
      · subst hveq
        simp [QueryVal.serialize] at hser
        exact ⟨p, hp, f, hf, hser, hser ▸ hne⟩
      · exact absurd hk (by decide)
      · exact absurd hk (by decide)
    · rintro ⟨p, hp, f, hf, hslug, hne⟩
      refine ⟨QueryVal.str f.category.slug, ?_, ?_⟩
      · exact (mem_getPagesQuery_iff _ _ _).mpr
          ⟨p, hp, Or.inl ⟨f, hf, by rw [hslug]; exact hne, rfl, rfl⟩⟩
      · simp [QueryVal.serialize, hslug]
  · intro t
    rw [hq, mem_buildSearchParams]
    constructor
    · rintro ⟨v, hv, hser⟩
      rcases (mem_getPagesQuery_iff _ _ _).mp hv with ⟨p, hp, hcase⟩
      rcases hcase with ⟨f, hf, hne, hk, hveq⟩ | ⟨n, hn, hk, hveq⟩ | ⟨n, hn, hk, hveq⟩
      · exact absurd hk (by decide)
      · subst hveq
        simp [QueryVal.serialize] at hser
        exact ⟨p, hp, n, hn, hser.symm⟩
      · exact absurd hk (by decide)
    · rintro ⟨p, hp, n, hn, ht⟩
      exact ⟨QueryVal.num n,
        (mem_getPagesQuery_iff _ _ _).mpr ⟨p, hp, Or.inr (Or.inl ⟨n, hn, rfl, rfl⟩)⟩,
        by simp [QueryVal.serialize, ht]⟩
  · intro t
    rw [hq, mem_buildSearchParams]
    constructor
    · rintro ⟨v, hv, hser⟩
      rcases (mem_getPagesQuery_iff _ _ _).mp hv with ⟨p, hp, hcase⟩
      rcases hcase with ⟨f, hf, hne, hk, hveq⟩ | ⟨n, hn, hk, hveq⟩ | ⟨n, hn, hk, hveq⟩
      · exact absurd hk (by decide)
      · exact absurd hk (by decide)
      · subst hveq
        simp [QueryVal.serialize] at hser
        exact ⟨p, hp, n, hn, hser.symm⟩
    · rintro ⟨p, hp, n, hn, ht⟩
      exact ⟨QueryVal.num n,
        (mem_getPagesQuery_iff _ _ _).mpr ⟨p, hp, Or.inr (Or.inr ⟨n, hn, rfl, rfl⟩)⟩,
        by simp [QueryVal.serialize, ht]⟩
  · rw [hq]
    decide
  · rw [hq]
    decide

/-- Witness for C1 at the concrete pagination input of the spec. -/
theorem getPages_query_correct_witness :
    ("start", "0") ∈ (getPagesUrl ⟨"tok", "proj"⟩ (some ⟨none, some 0, some 10⟩)).query :=
  ((getPages_query_correct ⟨"tok", "proj"⟩ (some ⟨none, some 0, some 10⟩)).2.1 "0").mpr
    ⟨⟨none, some 0, some 10⟩, rfl, 0, rfl, rfl⟩

end JustCms
